import Mathlib

/-!
Shallow embedding of the two population-based optimizers implemented in
`topics/optimizers.ipynb`: differential evolution (`minimize_de`) and
particle swarm optimization (`minimize_pso`).

Modelling conventions:
* real numbers are modelled by `ℚ`;
* a numpy vector is a function from coordinate index to `ℚ` (only the
  first `d` coordinates are ever relevant, the operations are all
  coordinate-wise);
* a numpy 2-D array is a function from row index to vector;
* the process-wide random generator is an explicit oracle: each call of
  `np.random.uniform` reads a unit sample (intended to lie in `[0, 1]`),
  and each index drawn by `np.random.choice` reads a raw natural number
  that is consumed modulo the current number of candidates;
* `np.random.choice(candidates, size=3, replace=False)` raises when fewer
  than 3 candidates remain, so sampling is `Option`-valued, and both
  routines return `Option` (`none` models a raised exception);
* `x_swarm` in the source is a numpy view of a row of `X` (after
  initialization) or of `X_best` (after a swarm-best update); the state
  therefore stores a reference (`SwarmRef`) that is dereferenced against
  the current arrays, reproducing the aliasing of the source.
-/

namespace Optim

/-- A real vector, indexed by coordinate. -/
abbrev Vec : Type := Nat → ℚ

/-- A family of vectors: the rows of a numpy 2-D array. -/
abbrev Pop : Type := Nat → Vec

/-- A black-box objective function. -/
abbrev Obj : Type := Vec → ℚ

/-- `np.clip(x, lower, upper)`, i.e. coordinate-wise
`np.minimum(upper, np.maximum(x, lower))`. -/
def clipv (lower upper x : Vec) : Vec :=
  fun k => min (upper k) (max (x k) (lower k))

/-- `np.random.uniform(lower, upper)` realized from a unit sample `u`. -/
def unif (lower upper u : Vec) : Vec :=
  fun k => lower k + (upper k - lower k) * u k

/-- Index scan of `np.argmin`: fold over the remaining values, keeping the
index `bi` and value `bv` of the best element seen so far; `i` is the
position of the head of the remaining list.  A strictly smaller value is
required to displace the incumbent, so the first occurrence of the
minimum wins. -/
def argminFrom (bi : Nat) (bv : ℚ) (i : Nat) : List ℚ → Nat
  | [] => bi
  | v :: vs => if v < bv then argminFrom i v (i + 1) vs else argminFrom bi bv (i + 1) vs

/-- `np.argmin(function(population))` over rows `0 .. n-1`; `np.argmin`
raises on an empty array, hence the `Option`. -/
def bestIdx (f : Obj) (n : Nat) (pop : Pop) : Option Nat :=
  match (List.range n).map (fun i => f (pop i)) with
  | [] => none
  | v :: vs => some (argminFrom 0 v 1 vs)

/-- The minimum objective value over the population (the value at the
first-occurrence argmin row). -/
def popMin (f : Obj) (n : Nat) (pop : Pop) : ℚ :=
  f (pop ((bestIdx f n pop).getD 0))

/-! ### Differential evolution -/

/-- Hyper-parameters and box bounds of `minimize_de` (source argument
names `mutation` and `crossover`). -/
structure DEParams where
  lower : Vec
  upper : Vec
  mutation : ℚ
  crossover : ℚ

/-- Random draws consumed by one run of `minimize_de`:
`init i` are the unit samples of row `i` of the initial population,
`idx s j v` is the raw draw for the `v`-th index picked by
`np.random.choice` at step `s`, target `j`, and `cross s j` are the unit
samples of `np.random.rand(d)` for the crossover mask there. -/
structure DEOracle where
  init : Nat → Vec
  idx : Nat → Nat → Fin 3 → Nat
  cross : Nat → Nat → Vec

/-- Draw one element of a finite candidate list (uniform sampling
realized by consuming a raw draw modulo the list length), returning the
element and the list without it; fails on an empty list. -/
def pick (l : List Nat) (a : Nat) : Option (Nat × List Nat) :=
  if 0 < l.length then
    some (l.getD (a % l.length) 0, l.eraseIdx (a % l.length))
  else none

/-- `np.random.choice(l, size=3, replace=False)`: three draws without
replacement; raises (returns `none`) when fewer than 3 candidates. -/
def choose3 (l : List Nat) (a b c : Nat) : Option (Nat × Nat × Nat) := do
  let (i1, l1) ← pick l a
  let (i2, l2) ← pick l1 b
  let (i3, _) ← pick l2 c
  pure (i1, i2, i3)

/-- The index triple drawn for target `j` at step `s`:
`candidates = list(range(n)); candidates.remove(j)` then a 3-element
choice without replacement. -/
def deChoose (O : DEOracle) (n s j : Nat) : Option (Nat × Nat × Nat) :=
  choose3 ((List.range n).erase j) (O.idx s j 0) (O.idx s j 1) (O.idx s j 2)

/-- The mutant vector `np.clip(x1 + (x2 - x3) * mutation, lower, upper)`
built from population rows `i1, i2, i3`. -/
def deMutant (P : DEParams) (pop : Pop) (i1 i2 i3 : Nat) : Vec :=
  clipv P.lower P.upper (fun k => pop i1 k + (pop i2 k - pop i3 k) * P.mutation)

/-- The trial vector for target `j` at step `s`: mutation, clip, then the
per-coordinate binary crossover
`np.where(np.random.rand(d) < crossover, x_new, x_target)`. -/
def deTrial (P : DEParams) (O : DEOracle) (n s : Nat) (pop : Pop) (j : Nat) : Option Vec :=
  (deChoose O n s j).map (fun t =>
    fun k => if O.cross s j k < P.crossover then deMutant P pop t.1 t.2.1 t.2.2 k else pop j k)

/-- Processing of one target `j` at step `s`: build the trial vector and
replace row `j` in place exactly when the trial's objective value is
strictly smaller. -/
def deBody (f : Obj) (P : DEParams) (O : DEOracle) (n s : Nat) (pop : Pop) (j : Nat) :
    Option Pop :=
  (deTrial P O n s pop j).map (fun xnew =>
    if f xnew < f (pop j) then Function.update pop j xnew else pop)

/-- One pass over the targets in `js` (the source iterates `js = range n`),
threading the in-place population updates. -/
def deRound (f : Obj) (P : DEParams) (O : DEOracle) (n s : Nat) :
    List Nat → Pop → Option Pop
  | [], pop => some pop
  | j :: js, pop => (deBody f P O n s pop j).bind (deRound f P O n s js)

/-- `population = np.random.uniform(lower, upper, size=(n, d))`. -/
def deInit (P : DEParams) (O : DEOracle) : Pop :=
  fun i => unif P.lower P.upper (O.init i)

/-- The population after `t` full passes. -/
def deAfter (f : Obj) (P : DEParams) (O : DEOracle) (n : Nat) : Nat → Option Pop
  | 0 => some (deInit P O)
  | t + 1 => (deAfter f P O n t).bind (fun pop => deRound f P O n t (List.range n) pop)

/-- `minimize_de`: run `steps` passes, then return
`population[np.argmin(function(population))]`. -/
def minimize_de (f : Obj) (P : DEParams) (steps n : Nat) (O : DEOracle) : Option Vec :=
  (deAfter f P O n steps).bind (fun pop => (bestIdx f n pop).map (fun b => pop b))

/-! ### Particle swarm optimization -/

/-- Hyper-parameters and box bounds of `minimize_pso`. -/
structure PSOParams where
  lower : Vec
  upper : Vec
  ω : ℚ
  φ1 : ℚ
  φ2 : ℚ

/-- Random draws consumed by one run of `minimize_pso`: unit samples for
the initial positions and velocities, and `r1 s i`, `r2 s i` the unit
samples behind `np.random.uniform(0, φ1, size=d)` and
`np.random.uniform(0, φ2, size=d)` at step `s`, particle `i`. -/
structure PSOOracle where
  initX : Nat → Vec
  initV : Nat → Vec
  r1 : Nat → Nat → Vec
  r2 : Nat → Nat → Vec

/-- What the name `x_swarm` currently aliases: a row of `X` (as
initialized) or a row of `X_best` (after a swarm-best update). -/
inductive SwarmRef where
  | xRow (m : Nat)
  | bestRow (m : Nat)
deriving DecidableEq

/-- The mutable state of a `minimize_pso` run. -/
structure PSOState where
  X : Pop
  V : Pop
  Xbest : Pop
  ref : SwarmRef

/-- The current value of `x_swarm`: dereference the view. -/
def xswarm (st : PSOState) : Vec :=
  match st.ref with
  | SwarmRef.xRow m => st.X m
  | SwarmRef.bestRow m => st.Xbest m

/-- New velocity of particle `i`:
`ω * V[i] + r1 * (X_best[i] - X[i]) + r2 * (x_swarm - X[i])` with
`r1 = φ1 * u1`, `r2 = φ2 * u2`. -/
def psoVel (P : PSOParams) (O : PSOOracle) (s : Nat) (st : PSOState) (i : Nat) : Vec :=
  fun k =>
    P.ω * st.V i k + P.φ1 * O.r1 s i k * (st.Xbest i k - st.X i k)
      + P.φ2 * O.r2 s i k * (xswarm st k - st.X i k)

/-- Velocity and position update (source steps 1-3): write the new
velocity into `V[i]` and the clipped new position into `X[i]`. -/
def psoMove (P : PSOParams) (O : PSOOracle) (s : Nat) (st : PSOState) (i : Nat) : PSOState :=
  let v1 := psoVel P O s st i
  ⟨Function.update st.X i (clipv P.lower P.upper (fun k => st.X i k + v1 k)),
   Function.update st.V i v1, st.Xbest, st.ref⟩

/-- Personal-best update (source step 4):
`if function(X[i]) < function(X_best[i]): X_best[i] = X[i]`. -/
def psoBest (f : Obj) (st : PSOState) (i : Nat) : PSOState :=
  if f (st.X i) < f (st.Xbest i) then
    { st with Xbest := Function.update st.Xbest i (st.X i) } else st

/-- Swarm-best update (source step 5):
`if function(X_best[i]) < function(x_swarm): x_swarm = X_best[i]` — the
assignment rebinds the view, it copies nothing. -/
def psoSwarm (f : Obj) (st : PSOState) (i : Nat) : PSOState :=
  if f (st.Xbest i) < f (xswarm st) then { st with ref := SwarmRef.bestRow i } else st

/-- Processing of one particle `i` at step `s`. -/
def psoBody (f : Obj) (P : PSOParams) (O : PSOOracle) (s : Nat) (st : PSOState) (i : Nat) :
    PSOState :=
  psoSwarm f (psoBest f (psoMove P O s st i) i) i

/-- One pass over the particles in `is` (the source iterates
`is = range n`). -/
def psoRound (f : Obj) (P : PSOParams) (O : PSOOracle) (s : Nat) :
    List Nat → PSOState → PSOState
  | [], st => st
  | i :: is, st => psoRound f P O s is (psoBody f P O s st i)

/-- Initial state: `X` uniform in the box, `V` uniform in `[-1, 1]`
scaled by `upper - lower`, `X_best = X.copy()`, and `x_swarm` a view of
row `argmin(function(X))` of `X` (`np.argmin` raises on an empty swarm;
totalized here with a default, `minimize_pso` itself guards `n = 0`). -/
def psoInit (f : Obj) (P : PSOParams) (O : PSOOracle) (n : Nat) : PSOState :=
  let X : Pop := fun i => unif P.lower P.upper (O.initX i)
  ⟨X, fun i k => (-1 + 2 * O.initV i k) * (P.upper k - P.lower k), X,
   SwarmRef.xRow ((bestIdx f n X).getD 0)⟩

/-- The state after `t` full passes. -/
def psoAfter (f : Obj) (P : PSOParams) (O : PSOOracle) (n : Nat) : Nat → PSOState
  | 0 => psoInit f P O n
  | t + 1 => psoRound f P O t (List.range n) (psoAfter f P O n t)

/-- `minimize_pso`: run `steps` passes and return `x_swarm`; the initial
`np.argmin` raises on an empty swarm. -/
def minimize_pso (f : Obj) (P : PSOParams) (steps n : Nat) (O : PSOOracle) : Option Vec :=
  if n = 0 then none else some (xswarm (psoAfter f P O n steps))

/-! ### Predicates used by the statements -/

/-- Every coordinate of `v` lies in the box `[lower, upper]`. -/
def inBox (lower upper v : Vec) : Prop :=
  ∀ k, lower k ≤ v k ∧ v k ≤ upper k

/-- Every row of `pop` lies in the box. -/
def popInBox (lower upper : Vec) (pop : Pop) : Prop :=
  ∀ i, inBox lower upper (pop i)

/-- All positions and personal bests of a PSO state lie in the box
(velocities are deliberately not constrained). -/
def stInBox (lower upper : Vec) (st : PSOState) : Prop :=
  popInBox lower upper st.X ∧ popInBox lower upper st.Xbest

/-- The unit samples of a DE oracle lie in `[0, 1]`. -/
def deUnit (O : DEOracle) : Prop :=
  ∀ i k, 0 ≤ O.init i k ∧ O.init i k ≤ 1

/-- The initial-position unit samples of a PSO oracle lie in `[0, 1]`. -/
def psoUnit (O : PSOOracle) : Prop :=
  ∀ i k, 0 ≤ O.initX i k ∧ O.initX i k ≤ 1

/-- Aliasing invariant of a PSO run: while `x_swarm` is still a view of
row `m` of `X`, rows `m` of `X_best` and `X` have the same objective
value (at initialization they are the same vector). -/
def refInv (f : Obj) (st : PSOState) : Prop :=
  ∀ m, st.ref = SwarmRef.xRow m → f (st.Xbest m) = f (st.X m)

/-! ### Concrete instances used by counterexamples and witnesses -/

/-- A concrete objective: the first coordinate. -/
def cf : Obj := fun v => v 0

/-- Concrete DE parameters: box `[0, 1]` in every coordinate, the
source's default hyper-parameters. -/
def cP : DEParams := ⟨fun _ => 0, fun _ => 1, 1 / 2, 7 / 10⟩

/-- A concrete DE oracle with all unit samples `1/2` and all raw index
draws `0`. -/
def cO : DEOracle := ⟨fun _ _ => 1 / 2, fun _ _ _ => 0, fun _ _ _ => 1 / 2⟩

/-- DE parameters for the in-place-visibility demonstration: box
`[-8, 8]`, `mutation = 1`, `crossover = 1`. -/
def vP : DEParams := ⟨fun _ => -8, fun _ => 8, 1, 1⟩

/-- DE oracle for the in-place-visibility demonstration: the initial
rows are the constant vectors `4, 3, 2, 1`, and the index draws make
target `0` mutate from rows `(3, 2, 1)` and target `1` from rows
`(0, 2, 3)`. -/
def vO : DEOracle :=
  ⟨fun i _ => (12 - (i : ℚ)) / 16,
   fun _ j v => if j = 0 then 2 - v.val else 0,
   fun _ _ _ => 1 / 2⟩

/-- DE parameters with `crossover = 0`: no mutated coordinate can
survive into the trial vector. -/
def nP : DEParams := ⟨fun _ => 0, fun _ => 1, 1 / 2, 0⟩

/-- PSO parameters for the boundary-pinning demonstration: box `[0, 1]`,
`ω = 1`, `φ1 = φ2 = 0`. -/
def bP : PSOParams := ⟨fun _ => 0, fun _ => 1, 1, 0, 0⟩

/-- A PSO state sitting at the upper boundary with a large outward
velocity. -/
def bSt : PSOState := ⟨fun _ _ => 1, fun _ _ => 5, fun _ _ => 1, SwarmRef.xRow 0⟩

/-- A PSO oracle with all draws zero. -/
def bO : PSOOracle := ⟨fun _ _ => 0, fun _ _ => 0, fun _ _ _ => 0, fun _ _ _ => 0⟩

/-- Concrete PSO parameters: box `[0, 1]`, the source's default
hyper-parameters. -/
def wQ : PSOParams := ⟨fun _ => 0, fun _ => 1, 1 / 2, 1 / 5, 1 / 5⟩

/-- A concrete PSO oracle with fixed unit samples. -/
def wR : PSOOracle :=
  ⟨fun i k => 1 / ((i : ℚ) + k + 2), fun _ _ => 1 / 4, fun _ _ _ => 1 / 3, fun _ _ _ => 1 / 3⟩

/-! ### Box-bound helper lemmas -/

lemma clipv_inBox {lower upper : Vec} (hlu : ∀ k, lower k ≤ upper k) (x : Vec) :
    inBox lower upper (clipv lower upper x) := by
  intro k
  unfold clipv
  constructor
  · exact le_min (hlu k) (le_max_right _ _)
  · exact min_le_left _ _

lemma unif_inBox {lower upper u : Vec} (hlu : ∀ k, lower k ≤ upper k)
    (hu : ∀ k, 0 ≤ u k ∧ u k ≤ 1) : inBox lower upper (unif lower upper u) := by
  intro k
  unfold unif
  obtain ⟨h0, h1⟩ := hu k
  have hk := hlu k
  constructor
  · nlinarith
  · nlinarith

/-! ### `argmin` machinery -/

lemma argminFrom_spec (val : Nat → ℚ) :
    ∀ (len bi i : Nat) (bv : ℚ), bv = val bi → bi < i →
      (∀ m, m < i → bv ≤ val m) → (∀ m, m < bi → bv < val m) →
      argminFrom bi bv i ((List.range' i len).map val) < i + len ∧
      (∀ m, m < i + len → val (argminFrom bi bv i ((List.range' i len).map val)) ≤ val m) ∧
      (∀ m, m < argminFrom bi bv i ((List.range' i len).map val) →
        val (argminFrom bi bv i ((List.range' i len).map val)) < val m) := by
  intro len
  induction len with
  | zero =>
    intro bi i bv hbv hbi hle hstrict
    simp only [List.range'_zero, List.map_nil, argminFrom, Nat.add_zero]
    refine ⟨hbi, ?_, ?_⟩
    · intro m hm; simpa [hbv] using hle m hm
    · intro m hm; simpa [hbv] using hstrict m hm
  | succ len ih =>
    intro bi i bv hbv hbi hle hstrict
    rw [List.range'_succ, List.map_cons]
    simp only [argminFrom]
    by_cases hv : val i < bv
    · rw [if_pos hv]
      have h2 : (∀ m, m < i + 1 → val i ≤ val m) := by
        intro m hm
        rcases Nat.lt_succ_iff_lt_or_eq.mp hm with h | h
        · exact le_of_lt (lt_of_lt_of_le hv (hle m h))
        · exact le_of_eq (congrArg val h.symm)
      have h3 : (∀ m, m < i → val i < val m) := by
        intro m hm
        exact lt_of_lt_of_le hv (hle m hm)
      obtain ⟨g1, g2, g3⟩ := ih i (i + 1) (val i) rfl (Nat.lt_succ_self i) h2 h3
      refine ⟨by omega, ?_, g3⟩
      intro m hm
      exact g2 m (by omega)
    · rw [if_neg hv]
      have h2 : (∀ m, m < i + 1 → bv ≤ val m) := by
        intro m hm
        rcases Nat.lt_succ_iff_lt_or_eq.mp hm with h | h
        · exact hle m h
        · exact h ▸ le_of_not_lt hv
      obtain ⟨g1, g2, g3⟩ := ih bi (i + 1) bv hbv (by omega) h2 hstrict
      refine ⟨by omega, ?_, g3⟩
      intro m hm
      exact g2 m (by omega)

lemma bestIdx_spec (f : Obj) (pop : Pop) {n : Nat} (hn : 0 < n) :
    ∃ b, bestIdx f n pop = some b ∧ b < n ∧
      (∀ i, i < n → f (pop b) ≤ f (pop i)) ∧
      (∀ i, i < b → f (pop b) < f (pop i)) := by
  rcases n with _ | m
  · omega
  have hrange : (List.range (m + 1)).map (fun i => f (pop i)) =
      f (pop 0) :: (List.range' 1 m).map (fun i => f (pop i)) := by
    rw [List.range_eq_range', List.range'_succ, List.map_cons]
  have hb : bestIdx f (m + 1) pop =
      some (argminFrom 0 (f (pop 0)) 1 ((List.range' 1 m).map (fun i => f (pop i)))) := by
    unfold bestIdx
    rw [hrange]
  obtain ⟨g1, g2, g3⟩ := argminFrom_spec (fun i => f (pop i)) m 0 1 (f (pop 0)) rfl
    Nat.zero_lt_one
    (by
      intro k hk
      have hk0 : k = 0 := by omega
      subst hk0
      exact le_refl _)
    (by intro k hk; omega)
  exact ⟨_, hb, by omega, fun i hi => g2 i (by omega), g3⟩

lemma popMin_eq {f : Obj} {n : Nat} {pop : Pop} {b : Nat} (hb : bestIdx f n pop = some b) :
    popMin f n pop = f (pop b) := by
  unfold popMin
  rw [hb]
  rfl

/-! ### Sampling-without-replacement lemmas -/

lemma pick_eq {l : List Nat} (a : Nat) (hl : 0 < l.length) :
    pick l a = some (l.get ⟨a % l.length, Nat.mod_lt a hl⟩, l.eraseIdx (a % l.length)) := by
  rw [pick, if_pos hl, List.getD_eq_getElem l 0 (Nat.mod_lt a hl)]
  rfl

lemma pick_none {l : List Nat} (a : Nat) (hl : l.length = 0) : pick l a = none := by
  rw [pick, if_neg (by omega)]

lemma pick_length {l : List Nat} {a e : Nat} {l' : List Nat} (h : pick l a = some (e, l')) :
    l.length = l'.length + 1 := by
  by_cases hl : 0 < l.length
  · rw [pick_eq a hl] at h
    obtain ⟨he, hl'⟩ := Prod.mk.injEq .. ▸ Option.some.injEq .. ▸ h
    rw [← hl', List.length_eraseIdx, if_pos (Nat.mod_lt a hl)]
    omega
  · rw [pick_none a (by omega)] at h
    exact absurd h (by simp)

lemma pick_mem {l : List Nat} {a e : Nat} {l' : List Nat} (h : pick l a = some (e, l')) :
    e ∈ l ∧ l'.Sublist l ∧ (l.Nodup → e ∉ l') := by
  have hl : 0 < l.length := by
    have := pick_length h
    omega
  rw [pick_eq a hl] at h
  have hidx : a % l.length < l.length := Nat.mod_lt a hl
  obtain ⟨he, hl'⟩ := Prod.mk.injEq .. ▸ Option.some.injEq .. ▸ h
  subst he
  subst hl'
  refine ⟨List.get_mem l _ _, List.eraseIdx_sublist l _, ?_⟩
  intro hnd hmem
  obtain ⟨j, hj, hje⟩ := List.mem_iff_getElem.mp hmem
  have hjlen : j < l.length - 1 := by
    have := List.length_eraseIdx l (a % l.length)
    rw [if_pos hidx] at this
    omega
  rw [List.getElem_eraseIdx] at hje
  split at hje
  · have : j = a % l.length := by
      rw [List.get_eq_getElem] at hje
      exact (hnd.getElem_inj_iff).mp hje
    omega
  · have : j + 1 = a % l.length := by
      rw [List.get_eq_getElem] at hje
      exact (hnd.getElem_inj_iff).mp hje
    omega

lemma choose3_none {l : List Nat} (hl : l.length < 3) (a b c : Nat) :
    choose3 l a b c = none := by
  rcases h1 : pick l a with _ | p1
  · simp [choose3, h1]
  obtain ⟨e1, l1⟩ := p1
  have hlen1 := pick_length h1
  rcases h2 : pick l1 b with _ | p2
  · simp [choose3, h1, h2]
  obtain ⟨e2, l2⟩ := p2
  have hlen2 := pick_length h2
  have h3 : pick l2 c = none := pick_none c (by omega)
  simp [choose3, h1, h2, h3]

lemma choose3_spec {l : List Nat} (hnd : l.Nodup) (hl : 3 ≤ l.length) (a b c : Nat) :
    ∃ x y z, choose3 l a b c = some (x, y, z) ∧
      x ∈ l ∧ y ∈ l ∧ z ∈ l ∧ x ≠ y ∧ x ≠ z ∧ y ≠ z := by
  rcases h1 : pick l a with _ | p1
  · rw [pick, if_pos (by omega)] at h1
    exact absurd h1 (by simp)
  obtain ⟨x, l1⟩ := p1
  obtain ⟨hx, hsub1, hnm1⟩ := pick_mem h1
  have hlen1 := pick_length h1
  have hnd1 : l1.Nodup := hsub1.nodup hnd
  rcases h2 : pick l1 b with _ | p2
  · rw [pick, if_pos (by omega)] at h2
    exact absurd h2 (by simp)
  obtain ⟨y, l2⟩ := p2
  obtain ⟨hy, hsub2, hnm2⟩ := pick_mem h2
  have hlen2 := pick_length h2
  have hnd2 : l2.Nodup := hsub2.nodup hnd1
  rcases h3 : pick l2 c with _ | p3
  · rw [pick, if_pos (by omega)] at h3
    exact absurd h3 (by simp)
  obtain ⟨z, l3⟩ := p3
  obtain ⟨hz, hsub3, hnm3⟩ := pick_mem h3
  refine ⟨x, y, z, by simp [choose3, h1, h2, h3], hx, hsub1.mem hy, hsub1.mem (hsub2.mem hz),
    ?_, ?_, ?_⟩
  · intro hxy
    exact hnm1 hnd (hxy ▸ hy)
  · intro hxz
    exact hnm1 hnd (hxz ▸ hsub2.mem hz)
  · intro hyz
    exact hnm2 hnd1 (hyz ▸ hz)

lemma cands_nodup (n j : Nat) : ((List.range n).erase j).Nodup :=
  (List.nodup_range n).erase j

lemma cands_length {n j : Nat} (hj : j < n) : ((List.range n).erase j).length = n - 1 := by
  rw [List.length_erase_of_mem (List.mem_range.mpr hj), List.length_range]

lemma cands_mem {n j x : Nat} (hx : x ∈ (List.range n).erase j) : x < n ∧ x ≠ j := by
  obtain ⟨hne, hmem⟩ := ((List.nodup_range n).mem_erase_iff).mp hx
  exact ⟨List.mem_range.mp hmem, hne⟩

lemma deChoose_spec (O : DEOracle) {n : Nat} (s : Nat) {j : Nat} (hj : j < n) (hn : 4 ≤ n) :
    ∃ x y z, deChoose O n s j = some (x, y, z) ∧
      x < n ∧ y < n ∧ z < n ∧ x ≠ j ∧ y ≠ j ∧ z ≠ j ∧ x ≠ y ∧ x ≠ z ∧ y ≠ z := by
  obtain ⟨x, y, z, hc, hx, hy, hz, hxy, hxz, hyz⟩ :=
    choose3_spec (cands_nodup n j) (by rw [cands_length hj]; omega)
      (O.idx s j 0) (O.idx s j 1) (O.idx s j 2)
  obtain ⟨hx1, hx2⟩ := cands_mem hx
  obtain ⟨hy1, hy2⟩ := cands_mem hy
  obtain ⟨hz1, hz2⟩ := cands_mem hz
  exact ⟨x, y, z, hc, hx1, hy1, hz1, hx2, hy2, hz2, hxy, hxz, hyz⟩

lemma deChoose_none (O : DEOracle) {n : Nat} (s : Nat) {j : Nat} (hj : j < n) (hn : n < 4) :
    deChoose O n s j = none :=
  choose3_none (by rw [cands_length hj]; omega) _ _ _

/-! ### DE step lemmas -/

lemma deBody_eq {f : Obj} {P : DEParams} {O : DEOracle} {n s : Nat} {pop : Pop} {j : Nat}
    {pop' : Pop} (h : deBody f P O n s pop j = some pop') :
    ∃ xnew, deTrial P O n s pop j = some xnew ∧
      pop' = if f xnew < f (pop j) then Function.update pop j xnew else pop := by
  unfold deBody at h
  rw [Option.map_eq_some'] at h
  obtain ⟨x, hx, he⟩ := h
  exact ⟨x, hx, he.symm⟩

lemma deBody_slots {f : Obj} {P : DEParams} {O : DEOracle} {n s : Nat} {pop : Pop} {j : Nat}
    {pop' : Pop} (h : deBody f P O n s pop j = some pop') :
    (∀ i, i ≠ j → pop' i = pop i) ∧ (∀ i, f (pop' i) ≤ f (pop i)) ∧
      (∀ i, pop' i ≠ pop i → f (pop' i) < f (pop i)) := by
  obtain ⟨x, hx, he⟩ := deBody_eq h
  subst he
  split_ifs with hlt
  · refine ⟨fun i hi => Function.update_noteq hi _ _, fun i => ?_, fun i hne => ?_⟩
    · by_cases hij : i = j
      · subst hij
        rw [Function.update_same]
        exact le_of_lt hlt
      · rw [Function.update_noteq hij]
    · by_cases hij : i = j
      · subst hij
        rw [Function.update_same]
        exact hlt
      · exact absurd (Function.update_noteq hij _ _) hne
  · exact ⟨fun i _ => rfl, fun i => le_refl _, fun i hne => absurd rfl hne⟩

lemma deBody_isSome {f : Obj} {P : DEParams} {O : DEOracle} {n : Nat} (s : Nat) {j : Nat}
    (pop : Pop) (hj : j < n) (hn : 4 ≤ n) : ∃ pop', deBody f P O n s pop j = some pop' := by
  obtain ⟨x, y, z, hc, _⟩ := deChoose_spec O s hj hn
  unfold deBody deTrial
  rw [hc]
  exact ⟨_, rfl⟩

lemma deRound_slots {f : Obj} {P : DEParams} {O : DEOracle} {n s : Nat} :
    ∀ (js : List Nat) (pop pop' : Pop), deRound f P O n s js pop = some pop' →
      ∀ i, f (pop' i) ≤ f (pop i) := by
  intro js
  induction js with
  | nil =>
    intro pop pop' h i
    obtain rfl : pop = pop' := Option.some.injEq .. ▸ h
    exact le_refl _
  | cons j js ih =>
    intro pop pop' h i
    rw [deRound, Option.bind_eq_some] at h
    obtain ⟨q, hq, hr⟩ := h
    exact le_trans (ih q pop' hr i) ((deBody_slots hq).2.1 i)

lemma deRound_isSome {f : Obj} {P : DEParams} {O : DEOracle} {n s : Nat} (hn : 4 ≤ n) :
    ∀ (js : List Nat), (∀ j ∈ js, j < n) → ∀ (pop : Pop),
      ∃ pop', deRound f P O n s js pop = some pop' := by
  intro js
  induction js with
  | nil => exact fun _ pop => ⟨pop, rfl⟩
  | cons j js ih =>
    intro hjs pop
    obtain ⟨q, hq⟩ := deBody_isSome s pop (hjs j (List.mem_cons_self j js)) hn
    obtain ⟨pop', hpop'⟩ := ih (fun x hx => hjs x (List.mem_cons_of_mem j hx)) q
    exact ⟨pop', by rw [deRound, hq, Option.some_bind]; exact hpop'⟩

lemma deAfter_isSome {f : Obj} {P : DEParams} {O : DEOracle} {n : Nat} (hn : 4 ≤ n) :
    ∀ t, ∃ p, deAfter f P O n t = some p := by
  intro t
  induction t with
  | zero => exact ⟨deInit P O, rfl⟩
  | succ t ih =>
    obtain ⟨p, hp⟩ := ih
    obtain ⟨p', hp'⟩ := deRound_isSome hn (List.range n) (fun j hj => List.mem_range.mp hj) p
    exact ⟨p', by rw [deAfter, hp, Option.some_bind]; exact hp'⟩

lemma deBody_none {f : Obj} {P : DEParams} {O : DEOracle} {n s : Nat} {pop : Pop} {j : Nat}
    (h : deChoose O n s j = none) : deBody f P O n s pop j = none := by
  unfold deBody deTrial
  rw [h]
  rfl

lemma deAfter_none {f : Obj} {P : DEParams} {O : DEOracle} {n : Nat} (hn4 : n < 4)
    (hn1 : 1 ≤ n) : ∀ t, deAfter f P O n (t + 1) = none := by
  have hhead : ∃ rest, List.range n = 0 :: rest := by
    rcases n with _ | m
    · omega
    refine ⟨List.range' 1 m, ?_⟩
    rw [List.range_eq_range', List.range'_succ]
  obtain ⟨rest, hrest⟩ := hhead
  have hround : ∀ s pop, deRound f P O n s (List.range n) pop = none := by
    intro s pop
    rw [hrest, deRound, deBody_none (deChoose_none O s (by omega) hn4), Option.none_bind]
  intro t
  induction t with
  | zero => rw [deAfter, deAfter, Option.some_bind, hround]
  | succ t ih => rw [deAfter, ih, Option.none_bind]

lemma deAfter_mono {f : Obj} {P : DEParams} {O : DEOracle} {n : Nat} (t : Nat) :
    ∀ t', t ≤ t' → ∀ p', deAfter f P O n t' = some p' →
      ∃ p, deAfter f P O n t = some p ∧ ∀ i, f (p' i) ≤ f (p i) := by
  intro t' hle
  induction t', hle using Nat.le_induction with
  | base => exact fun p' h => ⟨p', h, fun i => le_refl _⟩
  | succ t'' hle ih =>
    intro p' h'
    rw [deAfter, Option.bind_eq_some] at h'
    obtain ⟨q, hq, hr⟩ := h'
    obtain ⟨p, hp, hqp⟩ := ih q hq
    exact ⟨p, hp, fun i => le_trans (deRound_slots _ _ _ hr i) (hqp i)⟩

/-! ### DE bounds lemmas -/

lemma deTrial_inBox {P : DEParams} {O : DEOracle} {n s : Nat} {pop : Pop} {j : Nat} {xnew : Vec}
    (hlu : ∀ k, P.lower k ≤ P.upper k) (hpop : popInBox P.lower P.upper pop)
    (h : deTrial P O n s pop j = some xnew) : inBox P.lower P.upper xnew := by
  rw [deTrial, Option.map_eq_some'] at h
  obtain ⟨t, ht, he⟩ := h
  subst he
  intro k
  dsimp only
  split_ifs with hc
  · exact clipv_inBox hlu _ k
  · exact hpop j k

lemma deBody_inBox {f : Obj} {P : DEParams} {O : DEOracle} {n s : Nat} {pop : Pop} {j : Nat}
    {pop' : Pop} (hlu : ∀ k, P.lower k ≤ P.upper k) (hpop : popInBox P.lower P.upper pop)
    (h : deBody f P O n s pop j = some pop') : popInBox P.lower P.upper pop' := by
  obtain ⟨x, hx, he⟩ := deBody_eq h
  subst he
  split_ifs with hlt
  · intro i
    by_cases hij : i = j
    · subst hij
      rw [Function.update_same]
      exact deTrial_inBox hlu hpop hx
    · rw [Function.update_noteq hij]
      exact hpop i
  · exact hpop

lemma deRound_inBox {f : Obj} {P : DEParams} {O : DEOracle} {n s : Nat}
    (hlu : ∀ k, P.lower k ≤ P.upper k) :
    ∀ (js : List Nat) (pop pop' : Pop), popInBox P.lower P.upper pop →
      deRound f P O n s js pop = some pop' → popInBox P.lower P.upper pop' := by
  intro js
  induction js with
  | nil =>
    intro pop pop' hpop h
    obtain rfl : pop = pop' := Option.some.injEq .. ▸ h
    exact hpop
  | cons j js ih =>
    intro pop pop' hpop h
    rw [deRound, Option.bind_eq_some] at h
    obtain ⟨q, hq, hr⟩ := h
    exact ih q pop' (deBody_inBox hlu hpop hq) hr

lemma deInit_inBox {P : DEParams} {O : DEOracle} (hlu : ∀ k, P.lower k ≤ P.upper k)
    (hu : deUnit O) : popInBox P.lower P.upper (deInit P O) :=
  fun i => unif_inBox hlu (hu i)

lemma deAfter_inBox {f : Obj} {P : DEParams} {O : DEOracle} {n : Nat}
    (hlu : ∀ k, P.lower k ≤ P.upper k) (hu : deUnit O) :
    ∀ t p, deAfter f P O n t = some p → popInBox P.lower P.upper p := by
  intro t
  induction t with
  | zero =>
    intro p h
    obtain rfl : deInit P O = p := Option.some.injEq .. ▸ h
    exact deInit_inBox hlu hu
  | succ t ih =>
    intro p h
    rw [deAfter, Option.bind_eq_some] at h
    obtain ⟨q, hq, hr⟩ := h
    exact deRound_inBox hlu _ q p (ih q hq) hr

/-! ### PSO stage lemmas -/

lemma xswarm_xRow {st : PSOState} {m : Nat} (hm : st.ref = SwarmRef.xRow m) :
    xswarm st = st.X m := by
  unfold xswarm
  rw [hm]

lemma xswarm_bestRow {st : PSOState} {m : Nat} (hm : st.ref = SwarmRef.bestRow m) :
    xswarm st = st.Xbest m := by
  unfold xswarm
  rw [hm]

lemma psoMove_Xbest {P : PSOParams} {O : PSOOracle} {s : Nat} {st : PSOState} {i : Nat} :
    (psoMove P O s st i).Xbest = st.Xbest := rfl

lemma psoMove_ref {P : PSOParams} {O : PSOOracle} {s : Nat} {st : PSOState} {i : Nat} :
    (psoMove P O s st i).ref = st.ref := rfl

lemma psoMove_X_ne {P : PSOParams} {O : PSOOracle} {s : Nat} {st : PSOState} {i m : Nat}
    (hm : m ≠ i) : (psoMove P O s st i).X m = st.X m :=
  Function.update_noteq hm _ _

lemma psoMove_X_self {P : PSOParams} {O : PSOOracle} {s : Nat} {st : PSOState} {i : Nat} :
    (psoMove P O s st i).X i =
      clipv P.lower P.upper (fun k => st.X i k + psoVel P O s st i k) :=
  Function.update_same _ _ _

lemma psoMove_V_self {P : PSOParams} {O : PSOOracle} {s : Nat} {st : PSOState} {i : Nat} :
    (psoMove P O s st i).V i = psoVel P O s st i :=
  Function.update_same _ _ _

lemma psoBest_X {f : Obj} {st : PSOState} {i : Nat} : (psoBest f st i).X = st.X := by
  unfold psoBest
  split_ifs <;> rfl

lemma psoBest_V {f : Obj} {st : PSOState} {i : Nat} : (psoBest f st i).V = st.V := by
  unfold psoBest
  split_ifs <;> rfl

lemma psoBest_ref {f : Obj} {st : PSOState} {i : Nat} : (psoBest f st i).ref = st.ref := by
  unfold psoBest
  split_ifs <;> rfl

lemma psoBest_Xbest_ne {f : Obj} {st : PSOState} {i m : Nat} (hm : m ≠ i) :
    (psoBest f st i).Xbest m = st.Xbest m := by
  unfold psoBest
  split_ifs
  · exact Function.update_noteq hm _ _
  · rfl

lemma psoBest_Xbest_self {f : Obj} {st : PSOState} {i : Nat} :
    (psoBest f st i).Xbest i = st.Xbest i ∨
      ((psoBest f st i).Xbest i = st.X i ∧ f (st.X i) < f (st.Xbest i)) := by
  unfold psoBest
  split_ifs with h1
  · right
    exact ⟨Function.update_same _ _ _, h1⟩
  · left
    rfl

lemma psoBest_le_X {f : Obj} {st : PSOState} {i : Nat} :
    f ((psoBest f st i).Xbest i) ≤ f (st.X i) := by
  unfold psoBest
  split_ifs with h1
  · dsimp only
    rw [Function.update_same]
  · exact le_of_not_lt h1

lemma psoBest_le_best {f : Obj} {st : PSOState} {i : Nat} (m : Nat) :
    f ((psoBest f st i).Xbest m) ≤ f (st.Xbest m) := by
  by_cases hm : m = i
  · subst hm
    rcases @psoBest_Xbest_self f st m with h | ⟨h, hlt⟩
    · rw [h]
    · rw [h]
      exact le_of_lt hlt
  · rw [psoBest_Xbest_ne hm]

lemma psoSwarm_X {f : Obj} {st : PSOState} {i : Nat} : (psoSwarm f st i).X = st.X := by
  unfold psoSwarm
  split_ifs <;> rfl

lemma psoSwarm_V {f : Obj} {st : PSOState} {i : Nat} : (psoSwarm f st i).V = st.V := by
  unfold psoSwarm
  split_ifs <;> rfl

lemma psoSwarm_Xbest {f : Obj} {st : PSOState} {i : Nat} :
    (psoSwarm f st i).Xbest = st.Xbest := by
  unfold psoSwarm
  split_ifs <;> rfl

lemma psoSwarm_cases {f : Obj} {st : PSOState} {i : Nat} :
    (f (st.Xbest i) < f (xswarm st) ∧ psoSwarm f st i = { st with ref := SwarmRef.bestRow i }) ∨
      (¬f (st.Xbest i) < f (xswarm st) ∧ psoSwarm f st i = st) := by
  unfold psoSwarm
  split_ifs with h1
  · exact Or.inl ⟨h1, rfl⟩
  · exact Or.inr ⟨h1, rfl⟩

lemma psoSwarm_refInv {f : Obj} {st : PSOState} {i : Nat}
    (hle : f (st.Xbest i) ≤ f (st.X i))
    (hother : ∀ m, m ≠ i → st.ref = SwarmRef.xRow m → f (st.Xbest m) = f (st.X m)) :
    refInv f (psoSwarm f st i) := by
  rcases @psoSwarm_cases f st i with ⟨h1, he⟩ | ⟨h1, he⟩
  · rw [he]
    intro m hm
    exact absurd hm (by simp)
  · rw [he]
    intro m hm
    by_cases hmi : m = i
    · subst hmi
      refine le_antisymm hle ?_
      rw [← xswarm_xRow hm]
      exact le_of_not_lt h1
    · exact hother m hmi hm

/-- The aliasing invariant is preserved by one particle update. -/
lemma psoBody_refInv {f : Obj} {P : PSOParams} {O : PSOOracle} {s : Nat} {st : PSOState}
    {i : Nat} (h : refInv f st) : refInv f (psoBody f P O s st i) := by
  unfold psoBody
  apply psoSwarm_refInv
  · rw [psoBest_X]
    exact psoBest_le_X
  · intro m hmi hm
    rw [psoBest_ref, psoMove_ref] at hm
    rw [psoBest_X, psoBest_Xbest_ne hmi, psoMove_Xbest, psoMove_X_ne hmi]
    exact h m hm

/-- Under the aliasing invariant, one particle update never increases the
objective value of the dereferenced `x_swarm`. -/
lemma psoBody_swarm_mono {f : Obj} {P : PSOParams} {O : PSOOracle} {s : Nat} {st : PSOState}
    {i : Nat} (h : refInv f st) :
    f (xswarm (psoBody f P O s st i)) ≤ f (xswarm st) := by
  unfold psoBody
  have hb2 : ∀ m, f ((psoBest f (psoMove P O s st i) i).Xbest m) ≤ f (st.Xbest m) := by
    intro m
    rw [← @psoMove_Xbest P O s st i]
    exact psoBest_le_best m
  have hswarm2 : f (xswarm (psoBest f (psoMove P O s st i) i)) ≤ f (xswarm st) ∨
      (st.ref = SwarmRef.xRow i ∧
        xswarm (psoBest f (psoMove P O s st i) i) = (psoBest f (psoMove P O s st i) i).X i) := by
    rcases hr : st.ref with m | m
    · by_cases hmi : m = i
      · subst hmi
        right
        refine ⟨rfl, ?_⟩
        exact xswarm_xRow (by rw [psoBest_ref, psoMove_ref]; exact hr)
      · left
        rw [xswarm_xRow hr,
          xswarm_xRow (by rw [psoBest_ref, psoMove_ref]; exact hr), psoBest_X,
          psoMove_X_ne hmi]
    · left
      rw [xswarm_bestRow hr,
        xswarm_bestRow (by rw [psoBest_ref, psoMove_ref]; exact hr)]
      exact hb2 m
  rcases @psoSwarm_cases f (psoBest f (psoMove P O s st i) i) i with
    ⟨h1, he⟩ | ⟨h1, he⟩
  · rw [he, xswarm_bestRow (m := i) rfl]
    rcases hswarm2 with h2 | ⟨hr, h2⟩
    · exact le_trans (le_of_lt h1) h2
    · calc f ((psoBest f (psoMove P O s st i) i).Xbest i) ≤ f (st.Xbest i) := hb2 i
        _ = f (st.X i) := h i hr
        _ = f (xswarm st) := by rw [xswarm_xRow hr]
  · rw [he]
    rcases hswarm2 with h2 | ⟨hr, h2⟩
    · exact h2
    · rw [h2]
      calc f ((psoBest f (psoMove P O s st i) i).X i)
          ≤ f ((psoBest f (psoMove P O s st i) i).Xbest i) := by
            rw [← h2]
            exact le_of_not_lt h1
        _ ≤ f (st.Xbest i) := hb2 i
        _ = f (st.X i) := h i hr
        _ = f (xswarm st) := by rw [xswarm_xRow hr]

/-! ### PSO run-level lemmas -/

lemma psoRound_key {f : Obj} {P : PSOParams} {O : PSOOracle} {s : Nat} :
    ∀ (l : List Nat) (st : PSOState), refInv f st →
      refInv f (psoRound f P O s l st) ∧
        f (xswarm (psoRound f P O s l st)) ≤ f (xswarm st) := by
  intro l
  induction l with
  | nil => exact fun st h => ⟨h, le_refl _⟩
  | cons i l ih =>
    intro st h
    rw [psoRound]
    obtain ⟨h1, h2⟩ := ih (psoBody f P O s st i) (psoBody_refInv h)
    exact ⟨h1, le_trans h2 (psoBody_swarm_mono h)⟩

lemma psoInit_refInv {f : Obj} {P : PSOParams} {O : PSOOracle} {n : Nat} :
    refInv f (psoInit f P O n) := fun _ _ => rfl

lemma psoAfter_refInv {f : Obj} {P : PSOParams} {O : PSOOracle} {n : Nat} :
    ∀ t, refInv f (psoAfter f P O n t) := by
  intro t
  induction t with
  | zero => exact psoInit_refInv
  | succ t ih => exact (psoRound_key _ _ ih).1

lemma psoAfter_swarm_mono {f : Obj} {P : PSOParams} {O : PSOOracle} {n : Nat} (t : Nat) :
    ∀ t', t ≤ t' →
      f (xswarm (psoAfter f P O n t')) ≤ f (xswarm (psoAfter f P O n t)) := by
  intro t' hle
  induction t', hle using Nat.le_induction with
  | base => exact le_refl _
  | succ t'' hle ih =>
    rw [psoAfter]
    exact le_trans (psoRound_key _ _ (psoAfter_refInv t'')).2 ih

/-! ### PSO personal-best lemmas -/

lemma psoBody_X_eq {f : Obj} {P : PSOParams} {O : PSOOracle} {s : Nat} {st : PSOState}
    {i : Nat} : (psoBody f P O s st i).X = (psoMove P O s st i).X := by
  unfold psoBody
  rw [psoSwarm_X, psoBest_X]

lemma psoBody_Xbest_eq {f : Obj} {P : PSOParams} {O : PSOOracle} {s : Nat} {st : PSOState}
    {i : Nat} : (psoBody f P O s st i).Xbest = (psoBest f (psoMove P O s st i) i).Xbest := by
  unfold psoBody
  rw [psoSwarm_Xbest]

lemma psoBody_Xbest_le {f : Obj} {P : PSOParams} {O : PSOOracle} {s : Nat} {st : PSOState}
    {i : Nat} (m : Nat) : f ((psoBody f P O s st i).Xbest m) ≤ f (st.Xbest m) := by
  rw [psoBody_Xbest_eq]
  rw [show st.Xbest = (psoMove P O s st i).Xbest from rfl]
  exact psoBest_le_best m

lemma psoBody_Xbest_change {f : Obj} {P : PSOParams} {O : PSOOracle} {s : Nat} {st : PSOState}
    {i m : Nat} (h : (psoBody f P O s st i).Xbest m ≠ st.Xbest m) :
    f ((psoBody f P O s st i).Xbest m) < f (st.Xbest m) := by
  rw [psoBody_Xbest_eq] at h ⊢
  by_cases hm : m = i
  · subst hm
    rcases @psoBest_Xbest_self f (psoMove P O s st m) m with h2 | ⟨h2, hlt⟩
    · exact absurd h2 h
    · rw [h2]
      exact hlt
  · exact absurd (psoBest_Xbest_ne hm) h

lemma psoBody_Xbest_le_X {f : Obj} {P : PSOParams} {O : PSOOracle} {s : Nat} {st : PSOState}
    {i : Nat} : f ((psoBody f P O s st i).Xbest i) ≤ f ((psoBody f P O s st i).X i) := by
  rw [psoBody_Xbest_eq, psoBody_X_eq]
  exact psoBest_le_X

lemma psoRound_Xbest_le {f : Obj} {P : PSOParams} {O : PSOOracle} {s : Nat} :
    ∀ (l : List Nat) (st : PSOState) (m : Nat),
      f ((psoRound f P O s l st).Xbest m) ≤ f (st.Xbest m) := by
  intro l
  induction l with
  | nil => exact fun st m => le_refl _
  | cons i l ih =>
    intro st m
    rw [psoRound]
    exact le_trans (ih (psoBody f P O s st i) m) (psoBody_Xbest_le m)

lemma psoAfter_Xbest_mono {f : Obj} {P : PSOParams} {O : PSOOracle} {n : Nat} (t : Nat) :
    ∀ t', t ≤ t' → ∀ m,
      f ((psoAfter f P O n t').Xbest m) ≤ f ((psoAfter f P O n t).Xbest m) := by
  intro t' hle
  induction t', hle using Nat.le_induction with
  | base => exact fun m => le_refl _
  | succ t'' hle ih =>
    intro m
    rw [psoAfter]
    exact le_trans (psoRound_Xbest_le _ _ m) (ih m)

/-! ### PSO bounds lemmas -/

lemma psoBody_inBox {f : Obj} {P : PSOParams} {O : PSOOracle} {s : Nat} {st : PSOState}
    {i : Nat} (hlu : ∀ k, P.lower k ≤ P.upper k) (h : stInBox P.lower P.upper st) :
    stInBox P.lower P.upper (psoBody f P O s st i) := by
  obtain ⟨hX, hB⟩ := h
  have hX1 : popInBox P.lower P.upper (psoMove P O s st i).X := by
    intro m
    by_cases hm : m = i
    · subst hm
      rw [psoMove_X_self]
      exact clipv_inBox hlu _
    · rw [psoMove_X_ne hm]
      exact hX m
  constructor
  · rw [psoBody_X_eq]
    exact hX1
  · rw [psoBody_Xbest_eq]
    intro m
    by_cases hm : m = i
    · subst hm
      rcases @psoBest_Xbest_self f (psoMove P O s st m) m with h2 | ⟨h2, _⟩
      · rw [h2]
        exact hB m
      · rw [h2]
        exact hX1 m
    · rw [psoBest_Xbest_ne hm]
      exact hB m

lemma psoRound_inBox {f : Obj} {P : PSOParams} {O : PSOOracle} {s : Nat}
    (hlu : ∀ k, P.lower k ≤ P.upper k) :
    ∀ (l : List Nat) (st : PSOState), stInBox P.lower P.upper st →
      stInBox P.lower P.upper (psoRound f P O s l st) := by
  intro l
  induction l with
  | nil => exact fun st h => h
  | cons i l ih =>
    intro st h
    rw [psoRound]
    exact ih _ (psoBody_inBox hlu h)

lemma psoInit_inBox {f : Obj} {P : PSOParams} {O : PSOOracle} {n : Nat}
    (hlu : ∀ k, P.lower k ≤ P.upper k) (hu : psoUnit O) :
    stInBox P.lower P.upper (psoInit f P O n) :=
  ⟨fun i => unif_inBox hlu (hu i), fun i => unif_inBox hlu (hu i)⟩

lemma psoAfter_inBox {f : Obj} {P : PSOParams} {O : PSOOracle} {n : Nat}
    (hlu : ∀ k, P.lower k ≤ P.upper k) (hu : psoUnit O) :
    ∀ t, stInBox P.lower P.upper (psoAfter f P O n t) := by
  intro t
  induction t with
  | zero => exact psoInit_inBox hlu hu
  | succ t ih => exact psoRound_inBox hlu _ _ ih

lemma xswarm_inBox {lower upper : Vec} {st : PSOState} (h : stInBox lower upper st) :
    inBox lower upper (xswarm st) := by
  rcases hr : st.ref with m | m
  · rw [xswarm_xRow hr]
    exact h.1 m
  · rw [xswarm_bestRow hr]
    exact h.2 m

/-! ### Realizability of index draws -/

lemma eraseIdx_indexOf (e : Nat) : ∀ l : List Nat, l.eraseIdx (List.indexOf e l) = l.erase e := by
  intro l
  induction l with
  | nil => rfl
  | cons h t ih =>
    by_cases he : h = e
    · subst he
      rw [List.indexOf_cons_self, List.eraseIdx_cons_zero, List.erase_cons_head]
    · rw [List.indexOf_cons_ne t he, Nat.succ_eq_add_one, List.eraseIdx_cons_succ, ih,
        List.erase_cons_tail (by simp [he])]

lemma pick_indexOf {l : List Nat} {e : Nat} (he : e ∈ l) :
    pick l (List.indexOf e l) = some (e, l.erase e) := by
  have hidx : List.indexOf e l < l.length := List.indexOf_lt_length.mpr he
  rw [pick, if_pos (by omega), Nat.mod_eq_of_lt hidx,
    List.getD_eq_getElem l 0 hidx, List.getElem_indexOf hidx, eraseIdx_indexOf]

lemma deChoose_surj (n s j : Nat) {x y z : Nat} (hx : x < n) (hy : y < n) (hz : z < n)
    (hxj : x ≠ j) (hyj : y ≠ j) (hzj : z ≠ j) (hxy : x ≠ y) (hxz : x ≠ z) (hyz : y ≠ z) :
    ∃ Q : DEOracle, deChoose Q n s j = some (x, y, z) := by
  have hnd0 : ((List.range n).erase j).Nodup := cands_nodup n j
  have hx0 : x ∈ (List.range n).erase j :=
    (List.mem_erase_of_ne hxj).mpr (List.mem_range.mpr hx)
  have hy0 : y ∈ (List.range n).erase j :=
    (List.mem_erase_of_ne hyj).mpr (List.mem_range.mpr hy)
  have hz0 : z ∈ (List.range n).erase j :=
    (List.mem_erase_of_ne hzj).mpr (List.mem_range.mpr hz)
  have hy1 : y ∈ ((List.range n).erase j).erase x :=
    (List.mem_erase_of_ne (Ne.symm hxy)).mpr hy0
  have hz1 : z ∈ ((List.range n).erase j).erase x :=
    (List.mem_erase_of_ne (Ne.symm hxz)).mpr hz0
  have hz2 : z ∈ (((List.range n).erase j).erase x).erase y :=
    (List.mem_erase_of_ne (Ne.symm hyz)).mpr hz1
  refine ⟨⟨fun _ _ => 0,
    fun _ _ v =>
      if v.val = 0 then List.indexOf x ((List.range n).erase j) else
      if v.val = 1 then List.indexOf y (((List.range n).erase j).erase x) else
      List.indexOf z ((((List.range n).erase j).erase x).erase y),
    fun _ _ _ => 0⟩, ?_⟩
  unfold deChoose
  simp only [choose3, Fin.isValue, Fin.val_zero, Fin.val_one, Fin.val_two]
  norm_num
  rw [pick_indexOf hx0]
  simp only [Option.some_bind]
  rw [pick_indexOf hy1]
  simp only [Option.some_bind]
  rw [pick_indexOf hz2]
  simp only [Option.some_bind]

lemma bestIdx_pos {f : Obj} {n : Nat} {pop : Pop} {b : Nat} (h : bestIdx f n pop = some b) :
    0 < n := by
  rcases n with _ | m
  · exact absurd h (by simp [bestIdx])
  · omega

lemma deInit_cO_val : ∀ i k, deInit cP cO i k = 1 / 2 := by
  intro i k
  show (0 : ℚ) + (1 - 0) * (1 / 2) = 1 / 2
  norm_num

lemma deBody_cO_fix (s j x y z : Nat) (hc : deChoose cO 4 s j = some (x, y, z)) :
    deBody cf cP cO 4 s (deInit cP cO) j = some (deInit cP cO) := by
  simp only [deBody, deTrial, hc, Option.map_some']
  have hcond : ¬cf (fun k =>
      if cO.cross s j k < cP.crossover then deMutant cP (deInit cP cO) x y z k
      else deInit cP cO j k) < cf (deInit cP cO j) := by
    have htr : (if cO.cross s j 0 < cP.crossover then deMutant cP (deInit cP cO) x y z 0
        else deInit cP cO j 0) = 1 / 2 := by
      rw [if_pos (show cO.cross s j 0 < cP.crossover by norm_num [cO, cP])]
      show min (cP.upper 0) (max (deInit cP cO x 0 +
        (deInit cP cO y 0 - deInit cP cO z 0) * cP.mutation) (cP.lower 0)) = 1 / 2
      rw [deInit_cO_val x 0, deInit_cO_val y 0, deInit_cO_val z 0]
      show min (1 : ℚ) (max (1 / 2 + (1 / 2 - 1 / 2) * (1 / 2)) 0) = 1 / 2
      norm_num
    show ¬(if cO.cross s j 0 < cP.crossover then deMutant cP (deInit cP cO) x y z 0
      else deInit cP cO j 0) < deInit cP cO j 0
    rw [htr, deInit_cO_val j 0]
    norm_num
  rw [if_neg hcond]

lemma deAfter_cO_one : deAfter cf cP cO 4 1 = some (deInit cP cO) := by
  have e0 : deChoose cO 4 0 0 = some (1, 2, 3) := rfl
  have e1 : deChoose cO 4 0 1 = some (0, 2, 3) := rfl
  have e2 : deChoose cO 4 0 2 = some (0, 1, 3) := rfl
  have e3 : deChoose cO 4 0 3 = some (0, 1, 2) := rfl
  have r3 : deRound cf cP cO 4 0 [3] (deInit cP cO) = some (deInit cP cO) := by
    show (deBody cf cP cO 4 0 (deInit cP cO) 3).bind (deRound cf cP cO 4 0 []) = _
    rw [deBody_cO_fix 0 3 0 1 2 e3, Option.some_bind]
    rfl
  have r2 : deRound cf cP cO 4 0 [2, 3] (deInit cP cO) = some (deInit cP cO) := by
    show (deBody cf cP cO 4 0 (deInit cP cO) 2).bind (deRound cf cP cO 4 0 [3]) = _
    rw [deBody_cO_fix 0 2 0 1 3 e2, Option.some_bind, r3]
  have r1 : deRound cf cP cO 4 0 [1, 2, 3] (deInit cP cO) = some (deInit cP cO) := by
    show (deBody cf cP cO 4 0 (deInit cP cO) 1).bind (deRound cf cP cO 4 0 [2, 3]) = _
    rw [deBody_cO_fix 0 1 0 2 3 e1, Option.some_bind, r2]
  have r0 : deRound cf cP cO 4 0 [0, 1, 2, 3] (deInit cP cO) = some (deInit cP cO) := by
    show (deBody cf cP cO 4 0 (deInit cP cO) 0).bind (deRound cf cP cO 4 0 [1, 2, 3]) = _
    rw [deBody_cO_fix 0 0 1 2 3 e0, Option.some_bind, r1]
  show (deAfter cf cP cO 4 0).bind
    (fun pop => deRound cf cP cO 4 0 (List.range 4) pop) = some (deInit cP cO)
  rw [show deAfter cf cP cO 4 0 = some (deInit cP cO) from rfl, Option.some_bind,
    show List.range 4 = [0, 1, 2, 3] from rfl, r0]

/-! ### Claim theorems -/

/-- Claim C1, counterexample: `minimize_de` called with the malformed
population size `n = 3` (and `steps = 0`) succeeds instead of failing —
the code contains no InvalidArgument validation. -/
theorem C1_counterexample : (minimize_de cf cP 0 3 cO).isSome = true := rfl

/-- Claim C1, amended: the code performs no explicit input validation.
`minimize_de` with `n < 4` and at least one step fails for every
objective and oracle — the mutation step cannot draw 3 distinct
candidates from the remaining `n - 1 ≤ 2`, and the failure is
independent of the objective function, which is never consulted to
produce it — while with `4 ≤ n` every call succeeds; with `steps = 0`
even `n = 3` succeeds. -/
theorem C1_de_population_size (f : Obj) (P : DEParams) (O : DEOracle) (steps n : Nat) :
    (n < 4 → 1 ≤ steps → minimize_de f P steps n O = none) ∧
    (4 ≤ n → ∃ v, minimize_de f P steps n O = some v) := by
  constructor
  · intro hn4 hs
    rcases n with _ | m
    · rcases h : deAfter f P O 0 steps with _ | p
      · rw [minimize_de, h, Option.none_bind]
      · rw [minimize_de, h, Option.some_bind]
        rfl
    · obtain ⟨t, rfl⟩ : ∃ t, steps = t + 1 := ⟨steps - 1, by omega⟩
      rw [minimize_de, deAfter_none hn4 (by omega) t, Option.none_bind]
  · intro hn
    obtain ⟨p, hp⟩ := deAfter_isSome hn steps
    obtain ⟨b, hb, _⟩ := @bestIdx_spec f p n (by omega)
    exact ⟨p b, by rw [minimize_de, hp, Option.some_bind, hb, Option.map_some']⟩

theorem C1_witness :
    minimize_de cf cP 1 3 cO = none ∧ (minimize_de cf cP 1 4 cO).isSome = true := by
  constructor
  · exact (C1_de_population_size cf cP cO 1 3).1 (by omega) (by omega)
  · obtain ⟨v, hv⟩ := (C1_de_population_size cf cP cO 1 4).2 (by omega)
    rw [hv]
    rfl

/-- Claim C2: in every run of `minimize_pso`, the objective value of the
swarm's best-known position `x_swarm` (dereferenced through the aliasing
of the source) is non-increasing across steps. -/
theorem C2_pso_swarm_monotone (f : Obj) (P : PSOParams) (O : PSOOracle) (n t u : Nat)
    (hle : t ≤ u) :
    f (xswarm (psoAfter f P O n u)) ≤ f (xswarm (psoAfter f P O n t)) :=
  psoAfter_swarm_mono t u hle

theorem C2_witness :
    (0 : Nat) ≤ 2 ∧
      cf (xswarm (psoAfter cf wQ wR 2 2)) ≤ cf (xswarm (psoAfter cf wQ wR 2 0)) :=
  ⟨by omega, C2_pso_swarm_monotone cf wQ wR 2 0 2 (by omega)⟩

/-- Claim C3: bounds invariant.  For valid bounds and unit random
samples, every DE population (after any number of passes, and through
any partial pass), every trial vector, every PSO position and
personal-best (and hence the dereferenced `x_swarm`), and the vectors
returned by both routines have every coordinate inside
`[lower k, upper k]`. -/
theorem C3_bounds_invariant (f : Obj) (P : DEParams) (Q : PSOParams) (O : DEOracle)
    (R : PSOOracle) (n : Nat) (hP : ∀ k, P.lower k ≤ P.upper k) (hO : deUnit O)
    (hQ : ∀ k, Q.lower k ≤ Q.upper k) (hR : psoUnit R) :
    (∀ t p, deAfter f P O n t = some p → popInBox P.lower P.upper p) ∧
    (∀ s l pop pop', popInBox P.lower P.upper pop →
        deRound f P O n s l pop = some pop' → popInBox P.lower P.upper pop') ∧
    (∀ s pop j xnew, popInBox P.lower P.upper pop →
        deTrial P O n s pop j = some xnew → inBox P.lower P.upper xnew) ∧
    (∀ steps v, minimize_de f P steps n O = some v → inBox P.lower P.upper v) ∧
    (∀ t, stInBox Q.lower Q.upper (psoAfter f Q R n t) ∧
        inBox Q.lower Q.upper (xswarm (psoAfter f Q R n t))) ∧
    (∀ s st i, stInBox Q.lower Q.upper st →
        stInBox Q.lower Q.upper (psoBody f Q R s st i)) ∧
    (∀ steps v, minimize_pso f Q steps n R = some v → inBox Q.lower Q.upper v) := by
  refine ⟨fun t p h => deAfter_inBox hP hO t p h,
    fun s l pop pop' hp h => deRound_inBox hP l pop pop' hp h,
    fun s pop j xnew hp h => deTrial_inBox hP hp h, ?_,
    fun t => ⟨psoAfter_inBox hQ hR t, xswarm_inBox (psoAfter_inBox hQ hR t)⟩,
    fun s st i h => psoBody_inBox hQ h, ?_⟩
  · intro steps v hv
    rw [minimize_de, Option.bind_eq_some] at hv
    obtain ⟨p, hp, hmap⟩ := hv
    rw [Option.map_eq_some'] at hmap
    obtain ⟨b, hb, hvb⟩ := hmap
    rw [← hvb]
    exact deAfter_inBox hP hO steps p hp b
  · intro steps v hv
    rw [minimize_pso] at hv
    by_cases hn0 : n = 0
    · rw [if_pos hn0] at hv
      exact absurd hv (by simp)
    · rw [if_neg hn0] at hv
      obtain rfl := Option.some.inj hv
      exact xswarm_inBox (psoAfter_inBox hQ hR steps)

theorem C3_witness :
    wQ.lower 0 ≤ (psoAfter cf wQ wR 4 1).X 0 0 ∧
      (psoAfter cf wQ wR 4 1).X 0 0 ≤ wQ.upper 0 := by
  have h := (C3_bounds_invariant cf cP wQ cO wR 4
    (fun k => by norm_num [cP])
    (fun i k => by norm_num [cO])
    (fun k => by norm_num [wQ])
    (fun i k => by
      have h1 : (0 : ℚ) ≤ (i : ℚ) := Nat.cast_nonneg i
      have h2 : (0 : ℚ) ≤ (k : ℚ) := Nat.cast_nonneg k
      constructor
      · show (0 : ℚ) ≤ 1 / ((i : ℚ) + k + 2)
        positivity
      · show (1 : ℚ) / ((i : ℚ) + k + 2) ≤ 1
        rw [div_le_one (by positivity)]
        linarith)).2.2.2.2.1 1
  obtain ⟨hX, hB⟩ := h.1
  exact hX 0 0

/-- Claim C4: in every run of `minimize_de`, the minimum objective value
over the population is non-increasing across steps. -/
theorem C4_de_popmin_monotone (f : Obj) (P : DEParams) (O : DEOracle) (n t u : Nat)
    (hn : 0 < n) (hle : t ≤ u) (p q : Pop) (hp : deAfter f P O n t = some p)
    (hq : deAfter f P O n u = some q) : popMin f n q ≤ popMin f n p := by
  obtain ⟨p', hp', hmono⟩ := deAfter_mono t u hle q hq
  rw [hp] at hp'
  obtain rfl : p = p' := Option.some.injEq .. ▸ hp'
  obtain ⟨b, hb, hbn, _, _⟩ := bestIdx_spec f p hn
  obtain ⟨c, hc, _, hcmin, _⟩ := bestIdx_spec f q hn
  rw [popMin_eq hb, popMin_eq hc]
  exact le_trans (hcmin b hbn) (hmono b)

theorem C4_witness :
    deAfter cf cP cO 4 1 = some (deInit cP cO) ∧
      popMin cf 4 (deInit cP cO) ≤ popMin cf 4 (deInit cP cO) :=
  ⟨deAfter_cO_one, C4_de_popmin_monotone cf cP cO 4 0 1 (by omega) (by omega) (deInit cP cO)
    (deInit cP cO) rfl deAfter_cO_one⟩

/-- Claim C5: DE selection replaces the target exactly when the trial is
strictly better; the replacement is visible to later targets of the same
pass (demonstrated on a concrete run where target 1 mutates using the
already-updated row 0); and the returned vector is the first-occurrence
argmin of the final population. -/
theorem C5_de_selection_and_return (f : Obj) (P : DEParams) (O : DEOracle) (n : Nat) :
    (∀ s pop j xnew, deTrial P O n s pop j = some xnew →
        deBody f P O n s pop j =
          some (if f xnew < f (pop j) then Function.update pop j xnew else pop)) ∧
    ((deRound cf vP vO 4 0 [0, 1] (deInit vP vO)).map (fun q => (q 0 0, q 1 0)) =
        some (0, 1)) ∧
    (∀ steps v, minimize_de f P steps n O = some v →
        ∃ pop b, deAfter f P O n steps = some pop ∧ v = pop b ∧ b < n ∧
          (∀ i, i < n → f v ≤ f (pop i)) ∧ (∀ i, i < b → f v < f (pop i))) := by
  have h0v : ∀ k, deInit vP vO 0 k = 4 := by
    intro k
    show (-8 : ℚ) + (8 - -8) * ((12 - ((0 : Nat) : ℚ)) / 16) = 4
    norm_num
  have h1v : ∀ k, deInit vP vO 1 k = 3 := by
    intro k
    show (-8 : ℚ) + (8 - -8) * ((12 - ((1 : Nat) : ℚ)) / 16) = 3
    norm_num
  have h2v : ∀ k, deInit vP vO 2 k = 2 := by
    intro k
    show (-8 : ℚ) + (8 - -8) * ((12 - ((2 : Nat) : ℚ)) / 16) = 2
    norm_num
  have h3v : ∀ k, deInit vP vO 3 k = 1 := by
    intro k
    show (-8 : ℚ) + (8 - -8) * ((12 - ((3 : Nat) : ℚ)) / 16) = 1
    norm_num
  have e1 : deChoose vO 4 0 0 = some (3, 2, 1) := rfl
  have hL1 : (fun k =>
      if vO.cross 0 0 k < vP.crossover then deMutant vP (deInit vP vO) 3 2 1 k
      else deInit vP vO 0 k) = fun _ => (0 : ℚ) := by
    funext k
    rw [if_pos (show vO.cross 0 0 k < vP.crossover by norm_num [vO, vP])]
    show min (vP.upper k)
        (max (deInit vP vO 3 k + (deInit vP vO 2 k - deInit vP vO 1 k) * vP.mutation)
          (vP.lower k)) = 0
    rw [h3v k, h2v k, h1v k]
    show min (8 : ℚ) (max (1 + (2 - 3) * 1) (-8)) = 0
    norm_num
  have hb1 : deBody cf vP vO 4 0 (deInit vP vO) 0 =
      some (Function.update (deInit vP vO) 0 (fun _ => (0 : ℚ))) := by
    simp only [deBody, deTrial, e1, Option.map_some']
    rw [hL1, if_pos]
    show cf (fun _ => (0 : ℚ)) < deInit vP vO 0 0
    rw [show cf (fun _ => (0 : ℚ)) = 0 from rfl, h0v 0]
    norm_num
  have e2 : deChoose vO 4 0 1 = some (0, 2, 3) := rfl
  have hL2 : (fun k =>
      if vO.cross 0 1 k < vP.crossover then
        deMutant vP (Function.update (deInit vP vO) 0 (fun _ => (0 : ℚ))) 0 2 3 k
      else Function.update (deInit vP vO) 0 (fun _ => (0 : ℚ)) 1 k) = fun _ => (1 : ℚ) := by
    funext k
    rw [if_pos (show vO.cross 0 1 k < vP.crossover by norm_num [vO, vP])]
    show min (vP.upper k)
        (max (Function.update (deInit vP vO) 0 (fun _ => (0 : ℚ)) 0 k +
          (Function.update (deInit vP vO) 0 (fun _ => (0 : ℚ)) 2 k -
            Function.update (deInit vP vO) 0 (fun _ => (0 : ℚ)) 3 k) * vP.mutation)
          (vP.lower k)) = 1
    rw [Function.update_same, Function.update_noteq (show (2 : Nat) ≠ 0 by omega),
      Function.update_noteq (show (3 : Nat) ≠ 0 by omega), h2v k, h3v k]
    show min (8 : ℚ) (max (0 + (2 - 1) * 1) (-8)) = 1
    norm_num
  have hb2 : deBody cf vP vO 4 0 (Function.update (deInit vP vO) 0 (fun _ => (0 : ℚ))) 1 =
      some (Function.update (Function.update (deInit vP vO) 0 (fun _ => (0 : ℚ))) 1
        (fun _ => (1 : ℚ))) := by
    simp only [deBody, deTrial, e2, Option.map_some']
    rw [hL2, if_pos]
    show cf (fun _ => (1 : ℚ)) < Function.update (deInit vP vO) 0 (fun _ => (0 : ℚ)) 1 0
    rw [show cf (fun _ => (1 : ℚ)) = 1 from rfl,
      Function.update_noteq (show (1 : Nat) ≠ 0 by omega), h1v 0]
    norm_num
  have hr1 : deRound cf vP vO 4 0 [1] (Function.update (deInit vP vO) 0 (fun _ => (0 : ℚ))) =
      some (Function.update (Function.update (deInit vP vO) 0 (fun _ => (0 : ℚ))) 1
        (fun _ => (1 : ℚ))) := by
    show (deBody cf vP vO 4 0 (Function.update (deInit vP vO) 0 (fun _ => (0 : ℚ))) 1).bind
      (deRound cf vP vO 4 0 []) = _
    rw [hb2, Option.some_bind]
    rfl
  have hr0 : deRound cf vP vO 4 0 [0, 1] (deInit vP vO) =
      some (Function.update (Function.update (deInit vP vO) 0 (fun _ => (0 : ℚ))) 1
        (fun _ => (1 : ℚ))) := by
    show (deBody cf vP vO 4 0 (deInit vP vO) 0).bind (deRound cf vP vO 4 0 [1]) = _
    rw [hb1, Option.some_bind, hr1]
  have hdemo : (deRound cf vP vO 4 0 [0, 1] (deInit vP vO)).map (fun q => (q 0 0, q 1 0)) =
      some (0, 1) := by
    rw [hr0, Option.map_some', Function.update_noteq (show (0 : Nat) ≠ 1 by omega),
      Function.update_same, Function.update_same]
  refine ⟨?_, hdemo, ?_⟩
  · intro s pop j xnew h
    rw [deBody, h, Option.map_some']
  · intro steps v hv
    rw [minimize_de, Option.bind_eq_some] at hv
    obtain ⟨pop, hpop, hmap⟩ := hv
    rw [Option.map_eq_some'] at hmap
    obtain ⟨b, hb, hvb⟩ := hmap
    obtain ⟨c, hc, hcn, hmin, hfirst⟩ := bestIdx_spec f pop (bestIdx_pos hb)
    rw [hb] at hc
    obtain rfl : b = c := Option.some.inj hc
    subst hvb
    exact ⟨pop, b, hpop, rfl, hcn, hmin, hfirst⟩

theorem C5_witness :
    deTrial cP cO 4 0 (deInit cP cO) 0 =
        some ((deTrial cP cO 4 0 (deInit cP cO) 0).getD (fun _ => 0)) ∧
      deBody cf cP cO 4 0 (deInit cP cO) 0 =
        some (if cf ((deTrial cP cO 4 0 (deInit cP cO) 0).getD (fun _ => 0)) <
              cf (deInit cP cO 0) then
            Function.update (deInit cP cO) 0
              ((deTrial cP cO 4 0 (deInit cP cO) 0).getD (fun _ => 0))
          else deInit cP cO) :=
  ⟨rfl, (C5_de_selection_and_return cf cP cO 4).1 0 (deInit cP cO) 0 _ rfl⟩

/-- Claim C6: DE mutation draws 3 pairwise-distinct indices below `n`,
all different from the target `j` (and every such triple is realizable
by some sequence of draws); the trial keeps the clipped mutant
coordinate `x1 + (x2 - x3) * F` exactly where the crossover draw is
below `CR` and the target's coordinate elsewhere; and no mutated
coordinate is guaranteed to survive — with `crossover = 0` the trial
equals the target and the population is left unchanged. -/
theorem C6_de_mutation_structure (P : DEParams) (O : DEOracle) (n s j : Nat)
    (hj : j < n) (hn : 4 ≤ n) :
    (∃ x y z, deChoose O n s j = some (x, y, z) ∧ x < n ∧ y < n ∧ z < n ∧
        x ≠ j ∧ y ≠ j ∧ z ≠ j ∧ x ≠ y ∧ x ≠ z ∧ y ≠ z) ∧
    (∀ x y z pop xnew, deChoose O n s j = some (x, y, z) →
        deTrial P O n s pop j = some xnew →
        ∀ k, (O.cross s j k < P.crossover →
            xnew k = min (P.upper k)
              (max (pop x k + (pop y k - pop z k) * P.mutation) (P.lower k))) ∧
          (¬O.cross s j k < P.crossover → xnew k = pop j k)) ∧
    (∀ x y z, x < n → y < n → z < n → x ≠ j → y ≠ j → z ≠ j → x ≠ y → x ≠ z → y ≠ z →
        ∃ Q : DEOracle, deChoose Q n s j = some (x, y, z)) ∧
    (deTrial nP cO 4 0 (deInit nP cO) 0 = some (deInit nP cO 0) ∧
      deBody cf nP cO 4 0 (deInit nP cO) 0 = some (deInit nP cO)) := by
  have ht : deTrial nP cO 4 0 (deInit nP cO) 0 = some (deInit nP cO 0) := by
    have hch : deChoose cO 4 0 0 = some (1, 2, 3) := rfl
    rw [deTrial, hch, Option.map_some']
    congr 1
    funext k
    exact if_neg (show ¬(cO.cross 0 0 k < nP.crossover) by norm_num [cO, nP])
  have hbody : deBody cf nP cO 4 0 (deInit nP cO) 0 = some (deInit nP cO) := by
    rw [deBody, ht, Option.map_some', if_neg (lt_irrefl _)]
  refine ⟨deChoose_spec O s hj hn, ?_,
    fun x y z hx hy hz hxj hyj hzj hxy hxz hyz =>
      deChoose_surj n s j hx hy hz hxj hyj hzj hxy hxz hyz, ht, hbody⟩
  intro x y z pop xnew hc htr
  rw [deTrial, hc, Option.map_some'] at htr
  obtain rfl :
      (fun k => if O.cross s j k < P.crossover then deMutant P pop x y z k else pop j k) =
        xnew := Option.some.injEq .. ▸ htr
  intro k
  constructor
  · intro hcr
    simp only [if_pos hcr]
    rfl
  · intro hcr
    simp only [if_neg hcr]

theorem C6_witness :
    ((0 : Nat) < 4 ∧ 4 ≤ 4) ∧ (deChoose cO 4 0 0).isSome = true := by
  refine ⟨⟨by omega, by omega⟩, ?_⟩
  obtain ⟨x, y, z, hc, _⟩ := (C6_de_mutation_structure cP cO 4 0 0 (by omega) (by omega)).1
  rw [hc]
  rfl

/-- Claim C7: each PSO particle update writes exactly the velocity
`ω V[i] + (φ1 u1) ⊙ (X_best[i] - X[i]) + (φ2 u2) ⊙ (x_swarm - X[i])`,
writes the hard-clamped position `clip(X[i] + V[i])` computed with the
new velocity, and the velocity itself is neither clamped nor reset: on a
concrete state pinned at the upper boundary the position stays at the
bound while the velocity remains `5`, pointing outward. -/
theorem C7_pso_velocity_position (f : Obj) (P : PSOParams) (O : PSOOracle) (s : Nat)
    (st : PSOState) (i : Nat) :
    ((psoBody f P O s st i).V i = fun k =>
        P.ω * st.V i k + P.φ1 * O.r1 s i k * (st.Xbest i k - st.X i k)
          + P.φ2 * O.r2 s i k * (xswarm st k - st.X i k)) ∧
    ((psoBody f P O s st i).X i = fun k =>
        min (P.upper k) (max (st.X i k + (psoBody f P O s st i).V i k) (P.lower k))) ∧
    ((psoBody cf bP bO 0 bSt 0).X 0 0 = 1 ∧ (psoBody cf bP bO 0 bSt 0).V 0 0 = 5 ∧
      bP.upper 0 = 1 ∧ 0 < (psoBody cf bP bO 0 bSt 0).V 0 0) := by
  have hVgen : ∀ (g : Obj) (Q : PSOParams) (R : PSOOracle) (u : Nat) (t : PSOState) (m : Nat),
      (psoBody g Q R u t m).V m = psoVel Q R u t m := by
    intro g Q R u t m
    unfold psoBody
    rw [psoSwarm_V, psoBest_V, psoMove_V_self]
  have hvel : ∀ k, psoVel bP bO 0 bSt 0 k = 5 := by
    intro k
    show bP.ω * bSt.V 0 k + bP.φ1 * bO.r1 0 0 k * (bSt.Xbest 0 k - bSt.X 0 k)
        + bP.φ2 * bO.r2 0 0 k * (xswarm bSt k - bSt.X 0 k) = 5
    norm_num [bP, bO, bSt, xswarm]
  have hVd : (psoBody cf bP bO 0 bSt 0).V 0 0 = 5 := by
    rw [hVgen]
    exact hvel 0
  have hXd : (psoBody cf bP bO 0 bSt 0).X 0 0 = 1 := by
    rw [psoBody_X_eq, psoMove_X_self]
    show min (bP.upper 0) (max (bSt.X 0 0 + psoVel bP bO 0 bSt 0 0) (bP.lower 0)) = 1
    rw [hvel 0]
    show min (1 : ℚ) (max ((1 : ℚ) + 5) 0) = 1
    norm_num
  refine ⟨hVgen f P O s st i, ?_, hXd, hVd, rfl, ?_⟩
  · rw [hVgen, psoBody_X_eq, psoMove_X_self]
    rfl
  · rw [hVd]
    norm_num

/-- Claim C8: with `steps = 0`, `minimize_de` returns the
first-occurrence argmin of the untouched initial population and
`minimize_pso` returns the initial `x_swarm`, the first-occurrence
argmin row of the initial position matrix. -/
theorem C8_zero_steps (f : Obj) (P : DEParams) (Q : PSOParams) (O : DEOracle) (R : PSOOracle)
    (n : Nat) (hn : 0 < n) :
    (∃ b, b < n ∧ minimize_de f P 0 n O = some (deInit P O b) ∧
        (∀ i, i < n → f (deInit P O b) ≤ f (deInit P O i)) ∧
        (∀ i, i < b → f (deInit P O b) < f (deInit P O i))) ∧
    (∃ m, m < n ∧ minimize_pso f Q 0 n R = some ((psoInit f Q R n).X m) ∧
        xswarm (psoInit f Q R n) = (psoInit f Q R n).X m ∧
        (∀ i, i < n → f ((psoInit f Q R n).X m) ≤ f ((psoInit f Q R n).X i)) ∧
        (∀ i, i < m → f ((psoInit f Q R n).X m) < f ((psoInit f Q R n).X i))) := by
  constructor
  · obtain ⟨b, hb, hbn, hmin, hfirst⟩ := bestIdx_spec f (deInit P O) hn
    exact ⟨b, hbn, by rw [minimize_de, deAfter, Option.some_bind, hb, Option.map_some'],
      hmin, hfirst⟩
  · obtain ⟨m, hm, hmn, hmin, hfirst⟩ := bestIdx_spec f ((psoInit f Q R n).X) hn
    have hsw : xswarm (psoInit f Q R n) = (psoInit f Q R n).X m := by
      have hr : (psoInit f Q R n).ref = SwarmRef.xRow m := by
        rw [show (psoInit f Q R n).ref =
          SwarmRef.xRow ((bestIdx f n ((psoInit f Q R n).X)).getD 0) from rfl, hm]
        rfl
      exact xswarm_xRow hr
    refine ⟨m, hmn, ?_, hsw, hmin, hfirst⟩
    rw [minimize_pso, if_neg (by omega),
      show psoAfter f Q R n 0 = psoInit f Q R n from rfl, hsw]

theorem C8_witness :
    (0 : Nat) < 4 ∧ (minimize_de cf cP 0 4 cO).isSome = true ∧
      (minimize_pso cf wQ 0 4 wR).isSome = true := by
  refine ⟨by omega, ?_, ?_⟩
  · obtain ⟨b, _, hb, _⟩ := (C8_zero_steps cf cP wQ cO wR 4 (by omega)).1
    rw [hb]
    rfl
  · obtain ⟨m, _, hm, _⟩ := (C8_zero_steps cf cP wQ cO wR 4 (by omega)).2
    rw [hm]
    rfl

/-- Claim C9: in every DE run, each population slot changes only when a
strictly better trial replaces it (other slots are untouched by that
target's processing), so the objective value of every slot is
non-increasing over the whole run. -/
theorem C9_de_slot_invariant (f : Obj) (P : DEParams) (O : DEOracle) (n : Nat) :
    (∀ s pop j pop', deBody f P O n s pop j = some pop' →
        (∀ i, i ≠ j → pop' i = pop i) ∧
        (∀ i, pop' i ≠ pop i → f (pop' i) < f (pop i))) ∧
    (∀ t u p q, t ≤ u → deAfter f P O n t = some p → deAfter f P O n u = some q →
        ∀ i, f (q i) ≤ f (p i)) := by
  constructor
  · intro s pop j pop' h
    obtain ⟨h1, _, h3⟩ := deBody_slots h
    exact ⟨h1, h3⟩
  · intro t u p q hle hp hq i
    obtain ⟨p', hp', hmono⟩ := deAfter_mono t u hle q hq
    rw [hp] at hp'
    obtain rfl : p = p' := Option.some.injEq .. ▸ hp'
    exact hmono i

theorem C9_witness :
    deAfter cf cP cO 4 1 = some (deInit cP cO) ∧
      cf (deInit cP cO 0) ≤ cf (deInit cP cO 0) :=
  ⟨deAfter_cO_one, (C9_de_slot_invariant cf cP cO 4).2 0 1 (deInit cP cO) (deInit cP cO)
    (by omega) rfl deAfter_cO_one 0⟩

/-- Claim C10: each PSO personal best changes only to a strictly better
position, immediately after particle `i` is processed its personal best
is at least as good as its position, and personal-best objective values
are non-increasing over the run. -/
theorem C10_pso_personal_best (f : Obj) (P : PSOParams) (O : PSOOracle) (n : Nat) :
    (∀ s st i m, (psoBody f P O s st i).Xbest m ≠ st.Xbest m →
        f ((psoBody f P O s st i).Xbest m) < f (st.Xbest m)) ∧
    (∀ s st i, f ((psoBody f P O s st i).Xbest i) ≤ f ((psoBody f P O s st i).X i)) ∧
    (∀ t u m, t ≤ u → f ((psoAfter f P O n u).Xbest m) ≤ f ((psoAfter f P O n t).Xbest m)) :=
  ⟨fun _ _ _ _ h => psoBody_Xbest_change h, fun _ _ _ => psoBody_Xbest_le_X,
    fun t u m hle => psoAfter_Xbest_mono t u hle m⟩

theorem C10_witness :
    (0 : Nat) ≤ 1 ∧
      cf ((psoAfter cf wQ wR 2 1).Xbest 0) ≤ cf ((psoAfter cf wQ wR 2 0).Xbest 0) :=
  ⟨by omega, (C10_pso_personal_best cf wQ wR 2).2.2 0 1 0 (by omega)⟩

end Optim
